import Mathlib

/-!
Verification of the Lapka agent core (src/lapka) against its specification:
a shallow embedding of the context manager (context.py), the LLM client retry
loop (llm.py), and the agent loop (agent.py), with theorems settling the
spec claims about compaction, retry accounting, tool dispatch and the
tool-call pairing invariant.

Conventions of the embedding:
* Python floats are modelled as exact rationals (ℚ); Python `int(x)` is
  truncation toward zero (`pyInt`).
* `await` points that can raise are modelled with `Except String`; an
  uncaught Python exception is an `Except.error` carrying a message.
* The remote model is an oracle indexed by call number; the network is an
  oracle indexed by POST number.
* Python truthiness of `str | None` values (`if x:` / `x or d`) is modelled
  explicitly: `none` and `some ""` are falsy.
-/

deriving instance DecidableEq for Except

namespace Lapka

/-- Minimal JSON value universe for tool-call arguments
(`json.loads` results and config-injected defaults in agent.py); arrays
are restricted to arrays of strings, which covers every array the code
passes around (the `blocked_commands` denylist). -/
inductive JVal where
  | jnull : JVal
  | jbool : Bool → JVal
  | jnum : Int → JVal
  | jstr : String → JVal
  | jarr : List String → JVal
deriving Repr, DecidableEq

/-- A decoded keyword-argument object (Python dict passed as `**args`). -/
abbrev ArgsObj := List (String × JVal)

/-- A tool call as it appears in a model response:
`tc["id"]` (absent modelled as `none`), `tc["function"]["name"]`,
`tc["function"]["arguments"]` (a raw JSON string). -/
structure ToolCall where
  id : Option String
  name : String
  arguments : String
deriving Repr, DecidableEq

/-- One element of a multi-part message content list, e.g.
`\x7b"type": "text", "text": ...\x7d` or an image_url part (agent.py run). -/
structure ContentPart where
  ctype : String
  payload : String
deriving Repr, DecidableEq

/-- Message content: either a plain string or a multi-part list. -/
inductive Content where
  | str : String → Content
  | parts : List ContentPart → Content
deriving Repr, DecidableEq

/-- A chat message dict as built by context.py / agent.py. -/
structure Message where
  role : String
  content : Content
  tool_calls : Option (List ToolCall) := none
  tool_call_id : Option String := none
deriving Repr, DecidableEq

/-- Usage dataclass from llm.py. -/
structure Usage where
  prompt_tokens : Nat := 0
  completion_tokens : Nat := 0
  total_tokens : Nat := 0
deriving Repr, DecidableEq

/-- LLMResponse dataclass from llm.py (the result of `_parse_response`). -/
structure LLMResponse where
  content : Option String := none
  tool_calls : Option (List ToolCall) := none
  usage : Option Usage := none
  finish_reason : Option String := none
deriving Repr, DecidableEq

/-- Python truthiness of a `str | None` value: `None` and `""` are falsy. -/
def truthyStr : Option String → Bool
  | none => false
  | some s => s ≠ ""

/-- Python `x or d` for `x : str | None`. -/
def pyOrStr (x : Option String) (d : String) : String :=
  match x with
  | none => d
  | some s => if s = "" then d else s

/-- Python `int(q)` for a nonnegative-or-negative rational: truncation
toward zero. -/
def pyInt (q : ℚ) : Int :=
  if 0 ≤ q then ⌊q⌋ else ⌈q⌉

/-- Exact product of a natural number and a rational, written with `mkRat`
so that it evaluates by kernel reduction (the library multiplication on ℚ
is marked irreducible); `qmulNat_eq` proves it equal to the ordinary
product. -/
def qmulNat (n : Nat) (q : ℚ) : ℚ := mkRat (n * q.num) q.den

/-- The reducible product agrees with the multiplication on ℚ. -/
theorem qmulNat_eq (n : Nat) (q : ℚ) : qmulNat n q = (n : ℚ) * q := by
  rw [qmulNat, Rat.mkRat_eq_div]
  push_cast
  rw [mul_div_assoc, Rat.num_div_den]

/-- estimate_tokens (context.py): `max(1, int(len(text) / 3.5))`, with the
float division `len/3.5` modelled exactly as `2*len/7` (floor). -/
def estimate_tokens (text : String) : Nat :=
  max 1 (text.length * 2 / 7)

/-- Quoted JSON string piece for the hand-rolled `json.dumps` model. -/
def jq (s : String) : String := "\"" ++ s ++ "\""

/-- Serialization of one JSON value (model of `json.dumps`). -/
def dumpsJVal : JVal → String
  | .jnull => "null"
  | .jbool b => if b then "true" else "false"
  | .jnum n => toString n
  | .jstr s => jq s
  | .jarr xs => "[" ++ String.intercalate ", " (xs.map jq) ++ "]"

/-- Serialization of one raw tool-call dict (model of `json.dumps` on the
dicts stored in a message's `tool_calls` field). -/
def dumpsToolCall (tc : ToolCall) : String :=
  "\x7b" ++
    (match tc.id with
     | some i => jq "id" ++ ": " ++ jq i ++ ", "
     | none => "") ++
    jq "type" ++ ": " ++ jq "function" ++ ", " ++
    jq "function" ++ ": \x7b" ++ jq "name" ++ ": " ++ jq tc.name ++ ", " ++
    jq "arguments" ++ ": " ++ jq tc.arguments ++ "\x7d\x7d"

/-- Serialization of a list of tool calls (`json.dumps(msg["tool_calls"])`). -/
def dumpsToolCalls (tcs : List ToolCall) : String :=
  "[" ++ String.intercalate ", " (tcs.map dumpsToolCall) ++ "]"

/-- Token contribution of one message in estimate_messages_tokens
(context.py): a string content contributes its estimate, any other content
contributes nothing; a truthy (present, non-empty) `tool_calls` field
contributes the estimate of its serialization. -/
def msgTokens (m : Message) : Nat :=
  (match m.content with
   | .str s => estimate_tokens s
   | .parts _ => 0) +
  (match m.tool_calls with
   | some (tc :: tcs) => estimate_tokens (dumpsToolCalls (tc :: tcs))
   | _ => 0)

/-- estimate_messages_tokens (context.py): running total over the list. -/
def estimate_messages_tokens (messages : List Message) : Nat :=
  messages.foldl (fun total m => total + msgTokens m) 0

/-- Modelled from the spec: the fixed system preamble.  context.py does
`from .prompts import SYSTEM_PROMPT`, but prompts.py defines only a
`_SYSTEM_TEMPLATE` plus a `get_system_prompt()` whose output varies with
date and OS and exports no `SYSTEM_PROMPT`; the spec calls it a "fixed
system prompt", so it is modelled as a fixed text.  No claim depends on
its exact contents. -/
def SYSTEM_PROMPT : String :=
  "You are Lapka, a task-execution AI. Use tools, be concise."

/-- COMPACTION_PROMPT from prompts.py. -/
def COMPACTION_PROMPT : String :=
  "CONTEXT CHECKPOINT. Summarize conversation for another LLM to continue.\n" ++
  "Include: progress, decisions, constraints, next steps, critical paths/data.\n" ++
  "Bullet points. Max 400 tokens."

/-- ContextManager state (context.py dataclass fields). -/
structure ContextManager where
  max_tokens : Nat := 4000
  compact_threshold : ℚ := mkRat 4 5
  full_history : List Message := []
  compaction_summary : Option String := none
  compaction_count : Nat := 0
  total_tokens_used : Nat := 0
deriving Repr, DecidableEq

namespace ContextManager

/-- add_message (context.py), as used by agent.py (no extra kwargs). -/
def add_message (cm : ContextManager) (role content : String) : ContextManager :=
  { cm with full_history := cm.full_history ++ [{ role := role, content := .str content }] }

/-- add_raw (context.py). -/
def add_raw (cm : ContextManager) (message : Message) : ContextManager :=
  { cm with full_history := cm.full_history ++ [message] }

/-- The checkpoint block wrapping the compaction summary (get_messages). -/
def checkpointMsg (summary : String) : Message :=
  { role := "user",
    content := .str ("[CONTEXT CHECKPOINT — previous conversation summary]\n" ++
      summary ++ "\n[END CHECKPOINT — continue from here]") }

/-- get_messages (context.py): system prompt, optional checkpoint block,
then the full history. -/
def get_messages (cm : ContextManager) : List Message :=
  ({ role := "system", content := .str SYSTEM_PROMPT } : Message) ::
    ((if truthyStr cm.compaction_summary then
        [checkpointMsg (cm.compaction_summary.getD "")]
      else []) ++ cm.full_history)

/-- needs_compaction (context.py): estimated tokens of the assembled list
compared against `int(max_tokens * compact_threshold)`.  The product is
computed through `qmulNat`, proved equal to `(max_tokens : ℚ) *
compact_threshold` in `qmulNat_eq` below. -/
def needs_compaction (cm : ContextManager) : Bool :=
  let current := estimate_messages_tokens (get_messages cm)
  let threshold : Int := pyInt (qmulNat cm.max_tokens cm.compact_threshold)
  decide ((current : Int) > threshold)

/-- The summarization request built inside compact (context.py):
system prompt, previous checkpoint if truthy, all history, then the fixed
compaction instruction. -/
def buildSummaryMessages (cm : ContextManager) : List Message :=
  ({ role := "system", content := .str SYSTEM_PROMPT } : Message) ::
    ((if truthyStr cm.compaction_summary then
        [{ role := "user",
           content := .str ("[Previous checkpoint]\n" ++ cm.compaction_summary.getD "") }]
      else []) ++ cm.full_history ++
      [{ role := "user", content := .str COMPACTION_PROMPT }])

/-- compact (context.py).  The summarization call is passed in as a
function from the request messages to the call outcome; an exception from
it is re-raised (second component `some e`), and every state mutation in
the source occurs after that call, so on failure the state is returned
untouched.  On success: store the response text (or the fallback) as the
new summary, add the call usage, keep only the last `min 6 len` messages,
increment the counter. -/
def compact (cm : ContextManager)
    (chat : List Message → Except String LLMResponse) :
    ContextManager × Option String :=
  if cm.full_history.isEmpty then (cm, none)
  else
    match chat (buildSummaryMessages cm) with
    | .error e => (cm, some e)
    | .ok response =>
      let summary := pyOrStr response.content "No summary generated."
      let total := cm.total_tokens_used +
        (match response.usage with
         | some u => u.total_tokens
         | none => 0)
      let keep_count := min 6 cm.full_history.length
      ({ cm with
          compaction_summary := some summary,
          total_tokens_used := total,
          full_history := cm.full_history.drop (cm.full_history.length - keep_count),
          compaction_count := cm.compaction_count + 1 }, none)

end ContextManager

/-! LLM client (llm.py): the chat retry loop. -/

/-- Outcome of one HTTP POST in LLMClient.chat: a transport failure, or a
response with a status code, an optional parsed `retry-after` header and a
body (already parsed into an LLMResponse, modelling `_parse_response`). -/
inductive HttpOutcome where
  | transportError : String → HttpOutcome
  | response : Nat → Option ℚ → LLMResponse → HttpOutcome
deriving Repr, DecidableEq

/-- _RETRY_DELAYS (llm.py). -/
def _RETRY_DELAYS : List ℚ := [1, 3, 8]

/-- Observable result of one LLMClient.chat call: the sleeps performed in
order, the number of POSTs made, and the final outcome (`.error` is the
uncaught RuntimeError). -/
structure ChatRun where
  waits : List ℚ
  posts : Nat
  outcome : Except String LLMResponse
deriving Repr, DecidableEq

/-- Message of the HTTPStatusError raised by `resp.raise_for_status()`. -/
def statusErrMsg (status : Nat) : String :=
  "HTTP status error: " ++ toString status

/-- The `for delay in _RETRY_DELAYS` loop body of LLMClient.chat (llm.py).
`net k` is the outcome of the k-th POST.  A 429 response sleeps the
`retry-after` value (falling back to the current delay) and `continue`s —
which moves to the NEXT delay of the schedule; a 2xx returns the parsed
body; any other status or a transport error records the error, sleeps the
current delay and retries.  When the schedule is exhausted a RuntimeError
wrapping the last recorded error (Python prints `None` when there was
none) is raised. -/
def chatGo (net : Nat → HttpOutcome) :
    List ℚ → Nat → Option String → ChatRun
  | [], _, lastErr =>
    { waits := [], posts := 0,
      outcome := .error ("LLM request failed after retries: " ++ lastErr.getD "None") }
  | delay :: rest, k, lastErr =>
    match net k with
    | .transportError e =>
      let r := chatGo net rest (k + 1) (some e)
      { waits := delay :: r.waits, posts := r.posts + 1, outcome := r.outcome }
    | .response status retryAfter body =>
      if status = 429 then
        let retry_after := retryAfter.getD delay
        let r := chatGo net rest (k + 1) lastErr
        { waits := retry_after :: r.waits, posts := r.posts + 1, outcome := r.outcome }
      else if 200 ≤ status ∧ status < 300 then
        { waits := [], posts := 1, outcome := .ok body }
      else
        let r := chatGo net rest (k + 1) (some (statusErrMsg status))
        { waits := delay :: r.waits, posts := r.posts + 1, outcome := r.outcome }

/-- LLMClient.chat (llm.py) over a POST oracle. -/
def chat (net : Nat → HttpOutcome) : ChatRun :=
  chatGo net _RETRY_DELAYS 0 none

/-- Whether a POST outcome is an HTTP 429 response. -/
def is429 : HttpOutcome → Bool
  | .response 429 _ _ => true
  | _ => false

/-- Number of non-429 failures among the first `n` POST outcomes
(a 2xx success among them would have ended the run, so on an
all-failure prefix this counts the failures that are not rate limits). -/
def countNon429 (net : Nat → HttpOutcome) (n : Nat) : Nat :=
  (List.range n).countP (fun k => !is429 (net k))

/-! Agent loop (agent.py). -/

/-- Environment of one Agent.run call: the two model-call oracles (indexed
by call number), the tool registry (`_TOOLS`, name to invocation function;
a tool raising is `.error`), the `json.loads` oracle restricted to object
results, the optional on_output callback (which may raise), the
config-derived values injected for bash, and the iteration cap. -/
structure AgentEnv where
  mainModel : Nat → Except String LLMResponse
  compactModel : Nat → Except String LLMResponse
  registry : List (String × (ArgsObj → Except String String))
  parseJson : String → Option ArgsObj
  onOutput : Option (String → Except String Unit)
  working_directory : String := "."
  command_timeout : Int := 30
  blocked_commands : List String :=
    ["rm -rf /", "rm -rf /*", "mkfs", "dd if=", ":()\x7b:|:&\x7d;:",
     "chmod -R 777 /", "shutdown", "reboot", "init 0", "init 6"]
  max_tool_iterations : Nat := 25

/-- get_tool (tools/__init__.py): registry lookup by name. -/
def get_tool (name : String)
    (registry : List (String × (ArgsObj → Except String String))) :
    Option (ArgsObj → Except String String) :=
  (registry.find? (fun p => p.1 = name)).map (fun p => p.2)

/-- Python `args[k]` lookup on the decoded argument object. -/
def lookupArg (args : ArgsObj) (k : String) : Option JVal :=
  (args.find? (fun p => p.1 = k)).map (fun p => p.2)

/-- Python `args.setdefault(k, v)`. -/
def setdefaultArg (args : ArgsObj) (k : String) (v : JVal) : ArgsObj :=
  if (lookupArg args k).isSome then args else args ++ [(k, v)]

/-- The config-based default injection for the bash tool inside
Agent._execute_tool (agent.py). -/
def injectDefaults (env : AgentEnv) (name : String) (args : ArgsObj) : ArgsObj :=
  if name = "bash" then
    setdefaultArg
      (setdefaultArg
        (setdefaultArg args "working_directory" (.jstr env.working_directory))
        "timeout" (.jnum env.command_timeout))
      "blocked_commands" (.jarr env.blocked_commands)
  else args

/-- Agent._execute_tool (agent.py): unknown names yield a textual error,
the bash defaults are injected, and any exception from the invocation is
caught and converted to a textual error — the function is total. -/
def executeTool (env : AgentEnv) (name : String) (args : ArgsObj) : String :=
  match get_tool name env.registry with
  | none => "❌ Unknown tool: " ++ name
  | some fn =>
    match fn (injectDefaults env name args) with
    | .ok r => r
    | .error e => "❌ Tool error: " ++ e

/-- Python `s.startswith(p)`: prefix test on the character sequence
(written over the underlying lists so that it evaluates by kernel
reduction; the library String.startsWith is well-founded recursive). -/
def pyStartsWith (s p : String) : Bool :=
  p.data.isPrefixOf s.data

/-- The failure-marker nudge appended to tool results (agent.py run). -/
def nudge (result : String) : String :=
  if pyStartsWith result "❌" || pyStartsWith result "⏰" then
    result ++ "\n[Hint: try an alternative approach — different tool, command, or source.]"
  else result

/-- The argument decoding in Agent.run: `json.loads` of the raw arguments
string, falling back on JSONDecodeError to
`\x7b"command": <raw string>\x7d`. -/
def decodeArgs (parseJson : String → Option ArgsObj) (raw : String) : ArgsObj :=
  (parseJson raw).getD [("command", .jstr raw)]

/-- The tool-call id used for the tool result message:
`tc.get("id", f"call_\x7btool_name\x7d")`. -/
def toolCallIdOf (tc : ToolCall) : String :=
  tc.id.getD ("call_" ++ tc.name)

/-- Python `str()` display of a JSON value, as an f-string would render
the value returned by `_summarize_args`. -/
def jvalDisplay : JVal → String
  | .jnull => "None"
  | .jbool b => if b then "True" else "False"
  | .jnum n => toString n
  | .jstr s => s
  | .jarr xs =>
    "[" ++ String.intercalate ", " (xs.map (fun s => "\x27" ++ s ++ "\x27")) ++ "]"

/-- Serialization of an argument object (model of `json.dumps(args)`). -/
def dumpsArgs (args : ArgsObj) : String :=
  "\x7b" ++
    String.intercalate ", "
      (args.map (fun p => jq p.1 ++ ": " ++ dumpsJVal p.2)) ++ "\x7d"

/-- _summarize_args (agent.py).  The `command` branch slices and
concatenates the value, which raises TypeError when the value is not a
string (or is a long list); the `path`/`url` branches return the value
as-is (displayed by the f-string); otherwise the serialized args are
truncated to 80 characters. -/
def summarizeArgs (args : ArgsObj) : Except String String :=
  match lookupArg args "command" with
  | some (.jstr cmd) =>
    .ok (if cmd.length > 80 then cmd.take 80 ++ "..." else cmd)
  | some (.jarr xs) =>
    if xs.length > 80 then
      .error "TypeError: can only concatenate list (not str) to list"
    else .ok (jvalDisplay (.jarr xs))
  | some _ => .error "TypeError: object of that type has no len()"
  | none =>
    match lookupArg args "path" with
    | some v => .ok (jvalDisplay v)
    | none =>
      match lookupArg args "url" with
      | some v => .ok (jvalDisplay v)
      | none => .ok ((dumpsArgs args).take 80)

/-- One `if on_output: await on_output(text)` site (agent.py). -/
def notify (env : AgentEnv) (text : String) : Except String Unit :=
  match env.onOutput with
  | none => .ok ()
  | some f => f text

/-- The pre-execution callback site for one tool call, including the
`_summarize_args` evaluation inside the f-string. -/
def notifyToolStart (env : AgentEnv) (name : String) (args : ArgsObj) :
    Except String Unit :=
  match env.onOutput with
  | none => .ok ()
  | some f =>
    match summarizeArgs args with
    | .error e => .error e
    | .ok s => f ("🔧 " ++ name ++ ": " ++ s)

/-- The post-execution callback site for one tool call, with the 200-char
preview truncation. -/
def notifyToolResult (env : AgentEnv) (result : String) : Except String Unit :=
  match env.onOutput with
  | none => .ok ()
  | some f =>
    let preview := if result.length > 200 then result.take 200 ++ "..." else result
    f ("   → " ++ preview)

/-- The tool result message appended for one tool call in Agent.run. -/
def toolMsgFor (env : AgentEnv) (tc : ToolCall) : Message :=
  { role := "tool",
    content := .str (nudge (executeTool env tc.name
      (decodeArgs env.parseJson tc.arguments))),
    tool_calls := none,
    tool_call_id := some (toolCallIdOf tc) }

/-- Events observable in one Agent.run: a model invocation
(`self.main_llm.chat`) and a message appended to the context history. -/
inductive REvent where
  | modelInvoked : REvent
  | append : Message → REvent
deriving Repr, DecidableEq

/-- The `.append` event carrying the tool result message of one tool call. -/
def toolAppendFor (env : AgentEnv) (tc : ToolCall) : REvent :=
  .append (toolMsgFor env tc)

/-- Result of an Agent.run: final context state, observable event trace,
and either the returned text or the uncaught exception. -/
structure RunResult where
  ctx : ContextManager
  events : List REvent
  outcome : Except String String
deriving Repr, DecidableEq

/-- The `for tc in response.tool_calls` body of Agent.run: decode the
arguments, compute the tool-call id, fire the pre-callback, execute the
tool to completion, apply the failure nudge, fire the post-callback, and
append the tool result message — sequentially, one call at a time.  A
callback exception aborts (third component) with the messages appended so
far kept in the context. -/
def toolLoop (env : AgentEnv) (cm : ContextManager) :
    List ToolCall → ContextManager × List REvent × Option String
  | [] => (cm, [], none)
  | tc :: rest =>
    let args := decodeArgs env.parseJson tc.arguments
    match notifyToolStart env tc.name args with
    | .error e => (cm, [], some e)
    | .ok _ =>
      let result := nudge (executeTool env tc.name args)
      match notifyToolResult env result with
      | .error e => (cm, [], some e)
      | .ok _ =>
        let tMsg := toolMsgFor env tc
        let step := toolLoop env (cm.add_raw tMsg) rest
        (step.1, .append tMsg :: step.2.1, step.2.2)

/-- Message of the AttributeError raised at `self.ctx.update_actual_tokens`
(agent.py): ContextManager (context.py) defines no such method, so any
response carrying usage raises. -/
def attrErrMsg : String :=
  "AttributeError: \x27ContextManager\x27 object has no attribute \x27update_actual_tokens\x27"

/-- The fixed iteration-limit notice (agent.py). -/
def maxIterNotice : String := "⚠️ Max tool iterations reached. Stopping."

/-- The compaction check opening each iteration of Agent.run: when the
threshold is exceeded, fire the optional callback (whose exception
propagates) and compact through the compaction model client (whose failure
propagates); returns the possibly-updated state, the next compact-call
index, and the exception if one was raised. -/
def compactStep (env : AgentEnv) (cm : ContextManager) (ci : Nat) :
    ContextManager × Nat × Option String :=
  if cm.needs_compaction then
    match notify env "🗜️ Compacting context..." with
    | .error e => (cm, ci, some e)
    | .ok _ =>
      match cm.compact (fun _ => env.compactModel ci) with
      | (cm', some e) => (cm', ci + 1, some e)
      | (cm', none) => (cm', ci + 1, none)
  else (cm, ci, none)

/-- The `while iteration < max_tool_iterations` loop of Agent.run, with
`fuel` the remaining iterations and `mi`/`ci` the number of main/compact
model calls already made.  Each iteration: compact first when the
threshold is exceeded (callback and compaction failures propagate), invoke
the main model, raise AttributeError if the response carries usage (see
`attrErrMsg`), finish on a response without tool calls, otherwise append
the assistant message with its tool_calls and run the tool loop.  When the
fuel runs out the fixed notice is recorded and returned. -/
def runLoop (env : AgentEnv) :
    Nat → ContextManager → Nat → Nat → RunResult
  | 0, cm, _, _ =>
    { ctx := cm.add_message "assistant" maxIterNotice,
      events := [.append { role := "assistant", content := .str maxIterNotice }],
      outcome := .ok maxIterNotice }
  | fuel + 1, cm, mi, ci =>
    match compactStep env cm ci with
    | (cm', _, some e) => { ctx := cm', events := [], outcome := .error e }
    | (cm', ci', none) =>
      match env.mainModel mi with
      | .error e =>
        { ctx := cm', events := [.modelInvoked], outcome := .error e }
      | .ok response =>
        if response.usage.isSome then
          { ctx := cm', events := [.modelInvoked], outcome := .error attrErrMsg }
        else
          match response.tool_calls with
          | none =>
            let answer := pyOrStr response.content ""
            { ctx := cm'.add_message "assistant" answer,
              events := [.modelInvoked,
                .append { role := "assistant", content := .str answer }],
              outcome := .ok answer }
          | some [] =>
            let answer := pyOrStr response.content ""
            { ctx := cm'.add_message "assistant" answer,
              events := [.modelInvoked,
                .append { role := "assistant", content := .str answer }],
              outcome := .ok answer }
          | some (tc :: tcs) =>
            let aMsg : Message :=
              { role := "assistant",
                content := .str (pyOrStr response.content ""),
                tool_calls := some (tc :: tcs) }
            match toolLoop env (cm'.add_raw aMsg) (tc :: tcs) with
            | (cm₂, tevs, some e) =>
              { ctx := cm₂,
                events := .modelInvoked :: .append aMsg :: tevs,
                outcome := .error e }
            | (cm₂, tevs, none) =>
              let r := runLoop env fuel cm₂ (mi + 1) ci'
              { ctx := r.ctx,
                events := .modelInvoked :: .append aMsg :: (tevs ++ r.events),
                outcome := r.outcome }

/-- The multi-part vision content built by Agent.run when an image is
supplied; the text part falls back when the user message is falsy. -/
def visionContent (user_message image_b64 : String) : Content :=
  .parts
    [{ ctype := "text",
       payload := if user_message = "" then "What\x27s in this image?" else user_message },
     { ctype := "image_url",
       payload := "data:image/jpeg;base64," ++ image_b64 }]

/-- The user message appended at the top of Agent.run. -/
def userMsgFor (user_message : String) (image_b64 : Option String) : Message :=
  match image_b64 with
  | some img =>
    if img = "" then { role := "user", content := .str user_message }
    else { role := "user", content := visionContent user_message img }
  | none => { role := "user", content := .str user_message }

/-- Agent.run (agent.py): append the user message (multi-part when an
image payload is supplied, honoring Python truthiness of the string), then
run the loop up to max_tool_iterations. -/
def run (env : AgentEnv) (cm : ContextManager) (user_message : String)
    (image_b64 : Option String) : RunResult :=
  let cm' := cm.add_raw (userMsgFor user_message image_b64)
  let r := runLoop env env.max_tool_iterations cm' 0 0
  { r with events := .append (userMsgFor user_message image_b64) :: r.events }

/-! Shared helper lemmas. -/

theorem emt_append (xs : List Message) (m : Message) :
    estimate_messages_tokens (xs ++ [m]) =
      estimate_messages_tokens xs + msgTokens m := by
  simp [estimate_messages_tokens, List.foldl_append]

theorem chatGo_posts_le (net : Nat → HttpOutcome) :
    ∀ (delays : List ℚ) (k : Nat) (lastErr : Option String),
      (chatGo net delays k lastErr).posts ≤ delays.length := by
  intro delays
  induction delays with
  | nil => intro k lastErr; simp [chatGo]
  | cons delay rest ih =>
    intro k lastErr
    simp only [chatGo]
    cases net k with
    | transportError e =>
      simpa using Nat.succ_le_succ (ih (k + 1) (some e))
    | response status retryAfter body =>
      by_cases h429 : status = 429
      · simp only [h429, if_pos rfl]
        simpa using Nat.succ_le_succ (ih (k + 1) lastErr)
      · by_cases hok : 200 ≤ status ∧ status < 300
        · simp [if_neg h429, if_pos hok]
        · simp only [if_neg h429, if_neg hok]
          simpa using Nat.succ_le_succ (ih (k + 1) (some (statusErrMsg status)))

/-! Claim C1 — rate-limit handling in LLMClient.chat. -/

/-- Dummy successful response body used by concrete network oracles. -/
def dummyResp : LLMResponse := { content := some "ok" }

/-- Concrete network oracle: the first POST is a 429 (no retry-after
header), every later POST is a transport error. -/
def netMix : Nat → HttpOutcome := fun k =>
  if k = 0 then .response 429 none dummyResp else .transportError "boom"

/-- C1, counterexample: the claim that a 429 retry does not consume one of
the fixed-schedule attempts is false.  With a 429 on the first POST and
transport errors afterwards, chat makes only 3 POSTs total and raises the
terminal failure after just 2 non-429 failures, although the fixed
schedule has length 3: the `continue` in the 429 branch advances the
`for delay in _RETRY_DELAYS` loop, consuming an attempt. -/
theorem chat_429_no_consume_counterexample :
    (chat netMix).outcome = .error "LLM request failed after retries: boom" ∧
    (chat netMix).posts = 3 ∧
    countNon429 netMix (chat netMix).posts = 2 ∧
    _RETRY_DELAYS.length = 3 ∧
    countNon429 netMix (chat netMix).posts ≠ _RETRY_DELAYS.length := by
  decide

/-- C1, amended: an HTTP 429 response makes chat wait the server-supplied
retry-after duration (falling back to the current backoff step when the
header is absent) and retry, but the retry DOES consume one of the
fixed-schedule attempts: the run continues with the rest of the schedule,
and the total number of POSTs in any run of chat is bounded by the length
of the fixed schedule. -/
theorem chat_429_waits_and_consumes :
    (∀ (net : Nat → HttpOutcome) (delay : ℚ) (rest : List ℚ) (k : Nat)
        (lastErr : Option String) (ra : Option ℚ) (body : LLMResponse),
      net k = .response 429 ra body →
      chatGo net (delay :: rest) k lastErr =
        { waits := ra.getD delay :: (chatGo net rest (k + 1) lastErr).waits,
          posts := (chatGo net rest (k + 1) lastErr).posts + 1,
          outcome := (chatGo net rest (k + 1) lastErr).outcome }) ∧
    (∀ net : Nat → HttpOutcome, (chat net).posts ≤ _RETRY_DELAYS.length) := by
  constructor
  · intro net delay rest k lastErr ra body hnet
    simp [chatGo, hnet]
  · intro net
    exact chatGo_posts_le net _RETRY_DELAYS 0 none

/-- All-429 network oracle with an explicit retry-after of 2 seconds. -/
def net429 : Nat → HttpOutcome := fun _ => .response 429 (some 2) dummyResp

/-- C1, witness: the amended theorem applied at a concrete 429 response
with retry-after 2: the wait is the server-supplied 2 (not the schedule
step 1) and the remaining schedule shrinks to [3, 8]. -/
theorem chat_429_waits_and_consumes_witness :
    chatGo net429 (1 :: [3, 8]) 0 none =
      { waits := (some (2 : ℚ)).getD 1 :: (chatGo net429 [3, 8] 1 none).waits,
        posts := (chatGo net429 [3, 8] 1 none).posts + 1,
        outcome := (chatGo net429 [3, 8] 1 none).outcome } ∧
    (chat net429).posts ≤ _RETRY_DELAYS.length :=
  ⟨chat_429_waits_and_consumes.1 net429 1 [3, 8] 0 none (some 2) dummyResp rfl,
   chat_429_waits_and_consumes.2 net429⟩

/-! Claim C2 — compact is atomic on failure. -/

/-- C2: when the summarization call raises, ContextManager.compact
re-raises the failure to its caller and leaves the full history, the
compaction summary, the compaction counter and the cumulative token usage
exactly as they were: every state mutation in the source occurs after the
call. -/
theorem compact_failure_atomic (cm : ContextManager)
    (chatFn : List Message → Except String LLMResponse) (e : String)
    (hne : cm.full_history ≠ [])
    (hfail : chatFn cm.buildSummaryMessages = .error e) :
    (cm.compact chatFn).2 = some e ∧
    (cm.compact chatFn).1.full_history = cm.full_history ∧
    (cm.compact chatFn).1.compaction_summary = cm.compaction_summary ∧
    (cm.compact chatFn).1.compaction_count = cm.compaction_count ∧
    (cm.compact chatFn).1.total_tokens_used = cm.total_tokens_used := by
  have hempty : cm.full_history.isEmpty = false := by
    simpa [List.isEmpty_iff] using hne
  simp [ContextManager.compact, hempty, hfail]

/-- Concrete one-message context used to witness C2. -/
def cmOneMsg : ContextManager :=
  { full_history := [{ role := "user", content := .str "hello" }] }

/-- C2, witness: the atomicity theorem applied to a one-message history
and a summarization call that fails. -/
theorem compact_failure_atomic_witness :
    (cmOneMsg.compact (fun _ => .error "fail")).2 = some "fail" ∧
    (cmOneMsg.compact (fun _ => .error "fail")).1.full_history = cmOneMsg.full_history ∧
    (cmOneMsg.compact (fun _ => .error "fail")).1.compaction_summary = cmOneMsg.compaction_summary ∧
    (cmOneMsg.compact (fun _ => .error "fail")).1.compaction_count = cmOneMsg.compaction_count ∧
    (cmOneMsg.compact (fun _ => .error "fail")).1.total_tokens_used = cmOneMsg.total_tokens_used :=
  compact_failure_atomic cmOneMsg (fun _ => .error "fail") "fail" (by decide) rfl

/-! Claim C5 — needs_compaction iff, and token-estimate monotonicity. -/

/-- C5: for every context state whose threshold T satisfies 0 < T ≤ 1,
needs_compaction is true iff the estimated token cost of the assembled
get_messages list exceeds max_tokens × T; and estimate_tokens is monotone
non-decreasing in the length of the measured text. -/
theorem needs_compaction_iff_threshold (cm : ContextManager)
    (hT0 : 0 < cm.compact_threshold) (_hT1 : cm.compact_threshold ≤ 1) :
    (cm.needs_compaction = true ↔
      ((estimate_messages_tokens cm.get_messages : ℚ) >
        (cm.max_tokens : ℚ) * cm.compact_threshold)) ∧
    (∀ s t : String, s.length ≤ t.length → estimate_tokens s ≤ estimate_tokens t) := by
  constructor
  · have hq : (0 : ℚ) ≤ (cm.max_tokens : ℚ) * cm.compact_threshold :=
      mul_nonneg (Nat.cast_nonneg _) (le_of_lt hT0)
    simp only [ContextManager.needs_compaction, qmulNat_eq, pyInt, if_pos hq,
      gt_iff_lt, decide_eq_true_eq]
    rw [Int.floor_lt]
    push_cast
    tauto
  · intro s t h
    exact max_le_max (le_refl 1)
      (Nat.div_le_div_right (Nat.mul_le_mul_right 2 h))

/-- Concrete context state used to witness C5: a tiny budget of 10 tokens
at threshold 4/5, with one long user message, so compaction is needed. -/
def cmTiny : ContextManager :=
  { max_tokens := 10,
    full_history :=
      [{ role := "user",
         content := .str "aaaaaaaaaaaaaaaaaaaaaaaaaaaaaaaaaaaaaaaaaaaaaaaa" }] }

/-- C5, witness: the iff applied at the concrete state (its threshold is
the default 4/5), together with a concrete monotonicity instance. -/
theorem needs_compaction_iff_threshold_witness :
    (cmTiny.needs_compaction = true ↔
      ((estimate_messages_tokens cmTiny.get_messages : ℚ) >
        (cmTiny.max_tokens : ℚ) * cmTiny.compact_threshold)) ∧
    (∀ s t : String, s.length ≤ t.length → estimate_tokens s ≤ estimate_tokens t) :=
  needs_compaction_iff_threshold cmTiny (by norm_num [cmTiny]) (by norm_num [cmTiny])

/-! Claim C6 — postconditions of a successful compact. -/

/-- C6: on an empty history compact is a no-op; on a non-empty history a
successful compact keeps exactly the last min(6, previous length) messages
(most recent), replaces the summary with the new response text, increments
the compaction counter by one, and adds the summarization call usage to
the running total. -/
theorem compact_success_postconditions :
    (∀ (cm : ContextManager) (chatFn : List Message → Except String LLMResponse),
      cm.full_history = [] → cm.compact chatFn = (cm, none)) ∧
    (∀ (cm : ContextManager) (chatFn : List Message → Except String LLMResponse)
        (resp : LLMResponse) (c : String),
      cm.full_history ≠ [] →
      chatFn cm.buildSummaryMessages = .ok resp →
      resp.content = some c → c ≠ "" →
      (cm.compact chatFn).2 = none ∧
      (cm.compact chatFn).1.full_history.length = min 6 cm.full_history.length ∧
      (cm.compact chatFn).1.full_history =
        cm.full_history.drop (cm.full_history.length - min 6 cm.full_history.length) ∧
      (cm.compact chatFn).1.compaction_summary = some c ∧
      (cm.compact chatFn).1.compaction_count = cm.compaction_count + 1 ∧
      (cm.compact chatFn).1.total_tokens_used = cm.total_tokens_used +
        (match resp.usage with
         | some u => u.total_tokens
         | none => 0)) := by
  constructor
  · intro cm chatFn h
    simp [ContextManager.compact, h]
  · intro cm chatFn resp c hne hok hc hcne
    have hempty : cm.full_history.isEmpty = false := by
      simpa [List.isEmpty_iff] using hne
    have hsum : pyOrStr resp.content "No summary generated." = c := by
      rw [hc]; simp [pyOrStr, hcne]
    have hlen : min 6 cm.full_history.length ≤ cm.full_history.length :=
      min_le_right _ _
    refine ⟨?_, ?_, ?_, ?_, ?_, ?_⟩
    all_goals simp [ContextManager.compact, hempty, hok, hsum, List.length_drop]
    all_goals omega

/-- Concrete eight-message history used to witness C6. -/
def cmEight : ContextManager :=
  { full_history := (List.range 8).map
      (fun i => { role := "user", content := .str (toString i) }) }

/-- Concrete successful summarization call used to witness C6. -/
def chatEight : List Message → Except String LLMResponse :=
  fun _ => .ok { content := some "SUM", usage := some { total_tokens := 42 } }

/-- C6, witness: the postconditions at an eight-message history — six
messages kept, summary SUM stored, counter at one, 42 tokens accumulated. -/
theorem compact_success_postconditions_witness :
    (cmEight.compact chatEight).2 = none ∧
    (cmEight.compact chatEight).1.full_history.length = min 6 cmEight.full_history.length ∧
    (cmEight.compact chatEight).1.full_history =
      cmEight.full_history.drop (cmEight.full_history.length - min 6 cmEight.full_history.length) ∧
    (cmEight.compact chatEight).1.compaction_summary = some "SUM" ∧
    (cmEight.compact chatEight).1.compaction_count = cmEight.compaction_count + 1 ∧
    (cmEight.compact chatEight).1.total_tokens_used = cmEight.total_tokens_used +
      (match ({ content := some "SUM", usage := some { total_tokens := 42 } } : LLMResponse).usage with
       | some u => u.total_tokens
       | none => 0) :=
  compact_success_postconditions.2 cmEight chatEight
    { content := some "SUM", usage := some { total_tokens := 42 } } "SUM"
    (by decide) rfl rfl (by decide)

/-! Claim C7 — tool dispatch never raises. -/

/-- C7: Agent._execute_tool is a total function into result strings: an
unknown tool name yields the deterministic textual unknown-tool error, and
an exception raised inside a registered tool invocation is caught at the
dispatch boundary and converted into a textual error result. -/
theorem execute_tool_never_raises :
    (∀ (env : AgentEnv) (name : String) (args : ArgsObj),
      get_tool name env.registry = none →
      executeTool env name args = "❌ Unknown tool: " ++ name) ∧
    (∀ (env : AgentEnv) (name : String) (args : ArgsObj)
        (fn : ArgsObj → Except String String) (e : String),
      get_tool name env.registry = some fn →
      fn (injectDefaults env name args) = .error e →
      executeTool env name args = "❌ Tool error: " ++ e) := by
  constructor
  · intro env name args h
    simp [executeTool, h]
  · intro env name args fn e hfn herr
    simp [executeTool, hfn, herr]

/-- Concrete registry with one always-raising tool, to witness C7. -/
def envRaise : AgentEnv :=
  { mainModel := fun _ => .ok dummyResp,
    compactModel := fun _ => .ok dummyResp,
    registry := [("boom_tool", fun _ => .error "oops")],
    parseJson := fun _ => none,
    onOutput := none }

/-- C7, witness: the unknown-tool branch at a name outside the registry,
and the caught-exception branch at the always-raising tool. -/
theorem execute_tool_never_raises_witness :
    executeTool envRaise "no_such_tool" [] = "❌ Unknown tool: " ++ "no_such_tool" ∧
    executeTool envRaise "boom_tool" [] = "❌ Tool error: " ++ "oops" :=
  ⟨execute_tool_never_raises.1 envRaise "no_such_tool" [] rfl,
   execute_tool_never_raises.2 envRaise "boom_tool" []
     (fun _ => .error "oops") "oops" rfl rfl⟩

/-! Claim C9 — malformed tool arguments and missing tool-call ids. -/

/-- C9: when a tool call carries an arguments string that does not parse
as JSON, the run does not fail and reports no parse error: the decoded
arguments fall back to the single-entry object command ↦ raw string, the
tool is invoked with it, and when the tool-call id is absent the
deterministic id call_<tool name> is used in the appended tool message;
the loop step completes normally whenever the progress callbacks do. -/
theorem malformed_args_fallback (env : AgentEnv) (cm : ContextManager)
    (tc : ToolCall) (rest : List ToolCall)
    (hparse : env.parseJson tc.arguments = none)
    (hid : tc.id = none)
    (hcb1 : notifyToolStart env tc.name [("command", .jstr tc.arguments)] = .ok ())
    (hcb2 : notifyToolResult env
      (nudge (executeTool env tc.name [("command", .jstr tc.arguments)])) = .ok ()) :
    decodeArgs env.parseJson tc.arguments = [("command", .jstr tc.arguments)] ∧
    toolMsgFor env tc =
      { role := "tool",
        content := .str (nudge (executeTool env tc.name [("command", .jstr tc.arguments)])),
        tool_calls := none,
        tool_call_id := some ("call_" ++ tc.name) } ∧
    toolLoop env cm (tc :: rest) =
      ((toolLoop env (cm.add_raw (toolMsgFor env tc)) rest).1,
        .append (toolMsgFor env tc) ::
          (toolLoop env (cm.add_raw (toolMsgFor env tc)) rest).2.1,
        (toolLoop env (cm.add_raw (toolMsgFor env tc)) rest).2.2) := by
  have hdec : decodeArgs env.parseJson tc.arguments = [("command", .jstr tc.arguments)] := by
    simp [decodeArgs, hparse]
  refine ⟨hdec, ?_, ?_⟩
  · simp [toolMsgFor, hdec, toolCallIdOf, hid]
  · simp only [toolLoop, hdec, hcb1, hcb2]

/-- Concrete environment for the C9 witness: no callback, a JSON oracle
that rejects everything, and an id-less tool call. -/
def envNoJson : AgentEnv :=
  { mainModel := fun _ => .ok dummyResp,
    compactModel := fun _ => .ok dummyResp,
    registry := [("bash", fun _ => .ok "done")],
    parseJson := fun _ => none,
    onOutput := none }

/-- Concrete id-less tool call whose arguments are not JSON. -/
def tcNoJson : ToolCall := { id := none, name := "bash", arguments := "ls -la" }

/-- C9, witness: the fallback theorem applied at the concrete id-less,
non-JSON tool call. -/
theorem malformed_args_fallback_witness :
    decodeArgs envNoJson.parseJson tcNoJson.arguments =
      [("command", .jstr tcNoJson.arguments)] ∧
    toolMsgFor envNoJson tcNoJson =
      { role := "tool",
        content := .str (nudge (executeTool envNoJson tcNoJson.name
          [("command", .jstr tcNoJson.arguments)])),
        tool_calls := none,
        tool_call_id := some ("call_" ++ tcNoJson.name) } ∧
    toolLoop envNoJson ({} : ContextManager) (tcNoJson :: []) =
      ((toolLoop envNoJson (ContextManager.add_raw {} (toolMsgFor envNoJson tcNoJson)) []).1,
        .append (toolMsgFor envNoJson tcNoJson) ::
          (toolLoop envNoJson (ContextManager.add_raw {} (toolMsgFor envNoJson tcNoJson)) []).2.1,
        (toolLoop envNoJson (ContextManager.add_raw {} (toolMsgFor envNoJson tcNoJson)) []).2.2) :=
  malformed_args_fallback envNoJson {} tcNoJson [] rfl rfl rfl rfl

/-! Claim C4 — the tool-call pairing invariant, via the event trace. -/

/-- A model invocation is never among the tool-result append events. -/
theorem not_modelInvoked_mem_toolAppends (env : AgentEnv) (l : List ToolCall) :
    REvent.modelInvoked ∉ l.map (toolAppendFor env) := by
  simp [toolAppendFor]

/-- The tool messages appended by the tool loop: on a clean pass one
append per tool call, in call order; on a callback abort the appends of a
proper prefix of the calls. -/
theorem toolLoop_events_spec (env : AgentEnv) :
    ∀ (tcs : List ToolCall) (cm : ContextManager),
      ((toolLoop env cm tcs).2.2 = none ∧
        (toolLoop env cm tcs).2.1 = tcs.map (toolAppendFor env)) ∨
      (∃ k e, k < tcs.length ∧ (toolLoop env cm tcs).2.2 = some e ∧
        (toolLoop env cm tcs).2.1 = (tcs.take k).map (toolAppendFor env)) := by
  intro tcs
  induction tcs with
  | nil =>
    intro cm
    left
    exact ⟨rfl, rfl⟩
  | cons tc rest ih =>
    intro cm
    simp only [toolLoop]
    rcases h1 : notifyToolStart env tc.name (decodeArgs env.parseJson tc.arguments) with e | u
    · right
      exact ⟨0, e, by simp, rfl, rfl⟩
    · rcases h2 : notifyToolResult env (nudge (executeTool env tc.name
        (decodeArgs env.parseJson tc.arguments))) with e | u'
      · right
        exact ⟨0, e, by simp, rfl, rfl⟩
      · rcases ih (cm.add_raw (toolMsgFor env tc)) with ⟨hnone, hevs⟩ | ⟨k, e, hk, hsome, hevs⟩
        · left
          refine ⟨hnone, ?_⟩
          simp [hevs, toolAppendFor]
        · right
          refine ⟨k + 1, e, by simpa using Nat.succ_lt_succ hk, hsome, ?_⟩
          simp [hevs, toolAppendFor, List.take_succ_cons]

set_option maxHeartbeats 1000000 in
/-- Shape of a loop trace at its head: empty, or starting with a model
invocation, or the lone iteration-limit notice. -/
theorem runLoop_events_shape (env : AgentEnv) (fuel : Nat) (cm : ContextManager)
    (mi ci : Nat) :
    (runLoop env fuel cm mi ci).events = [] ∨
    (∃ rest, (runLoop env fuel cm mi ci).events = REvent.modelInvoked :: rest) ∨
    (runLoop env fuel cm mi ci).events =
      [.append { role := "assistant", content := .str maxIterNotice }] := by
  cases fuel with
  | zero =>
    right; right; rfl
  | succ fuel =>
    simp only [runLoop]
    rcases hC : compactStep env cm ci with ⟨cm', ci', e?⟩
    cases e? with
    | some e => left; rfl
    | none =>
      dsimp only
      rcases hM : env.mainModel mi with e | response
      · right; left; exact ⟨[], rfl⟩
      · dsimp only
        by_cases hu : response.usage.isSome
        · rw [if_pos hu]
          right; left; exact ⟨[], rfl⟩
        · rw [if_neg hu]
          rcases hT : response.tool_calls with _ | tcl
          · right; left; exact ⟨_, rfl⟩
          · cases tcl with
            | nil =>
              right; left; exact ⟨_, rfl⟩
            | cons tc0 tcs0 =>
              dsimp only
              rcases hL : toolLoop env
                  (cm'.add_raw
                    { role := "assistant",
                      content := .str (pyOrStr response.content ""),
                      tool_calls := some (tc0 :: tcs0) }) (tc0 :: tcs0) with ⟨cm₂, tevs, e2?⟩
              cases e2? with
              | some e2 => right; left; exact ⟨_, rfl⟩
              | none => right; left; exact ⟨_, rfl⟩

/-- The user message appended at the top of run never carries tool calls. -/
theorem userMsgFor_tool_calls (u : String) (i : Option String) :
    (userMsgFor u i).tool_calls = none := by
  rcases i with _ | img
  · rfl
  · by_cases h : img = "" <;> simp [userMsgFor, h]

set_option maxHeartbeats 2000000 in
/-- Pairing invariant over the loop trace: whenever an appended assistant
message carries a non-empty tool_calls list and the run reaches another
model invocation, the events immediately following that append are exactly
one tool append per tool call, in call order, and the very next event
after them is the next model invocation; and every tool call of such a
message carries an id (from the hypothesis on model responses). -/
theorem runLoop_pairing (env : AgentEnv)
    (hids : ∀ i resp tcs, env.mainModel i = Except.ok resp →
      resp.tool_calls = some tcs → ∀ tc ∈ tcs, tc.id ≠ none) :
    ∀ (fuel : Nat) (cm : ContextManager) (mi ci : Nat)
      (pre : List REvent) (am : Message) (post : List REvent) (tcs : List ToolCall),
      (runLoop env fuel cm mi ci).events = pre ++ REvent.append am :: post →
      am.tool_calls = some tcs → tcs ≠ [] →
      REvent.modelInvoked ∈ post →
      (∀ tc ∈ tcs, tc.id ≠ none) ∧
      ∃ rest, post = tcs.map (toolAppendFor env) ++ REvent.modelInvoked :: rest := by
  intro fuel
  induction fuel with
  | zero =>
    intro cm mi ci pre am post tcs hsplit htcs hne hnext
    simp only [runLoop] at hsplit
    rcases pre with _ | ⟨p, pre'⟩
    · simp only [List.nil_append, List.cons.injEq, REvent.append.injEq] at hsplit
      obtain ⟨ham, hpost⟩ := hsplit
      rw [← ham] at htcs
      simp at htcs
    · simp only [List.cons_append, List.cons.injEq] at hsplit
      exact absurd hsplit.2.symm (List.append_ne_nil_of_right_ne_nil _ (by simp))
  | succ fuel ih =>
    intro cm mi ci pre am post tcs hsplit htcs hne hnext
    simp only [runLoop] at hsplit
    rcases hC : compactStep env cm ci with ⟨cm', ci', e?⟩
    rw [hC] at hsplit
    cases e? with
    | some e =>
      dsimp only at hsplit
      exact absurd hsplit.symm (List.append_ne_nil_of_right_ne_nil _ (by simp))
    | none =>
      dsimp only at hsplit
      rcases hM : env.mainModel mi with e | response
      · rw [hM] at hsplit
        dsimp only at hsplit
        rcases pre with _ | ⟨p, pre'⟩ <;> simp at hsplit
      · rw [hM] at hsplit
        dsimp only at hsplit
        by_cases hu : response.usage.isSome
        · rw [if_pos hu] at hsplit
          dsimp only at hsplit
          rcases pre with _ | ⟨p, pre'⟩ <;> simp at hsplit
        · rw [if_neg hu] at hsplit
          rcases hT : response.tool_calls with _ | tcl
          · rw [hT] at hsplit
            dsimp only at hsplit
            rcases pre with _ | ⟨p, pre'⟩
            · simp at hsplit
            · simp only [List.cons_append, List.cons.injEq] at hsplit
              obtain ⟨-, hsplit⟩ := hsplit
              rcases pre' with _ | ⟨q, pre''⟩
              · simp only [List.nil_append, List.cons.injEq, REvent.append.injEq] at hsplit
                rw [← hsplit.1] at htcs
                simp at htcs
              · simp only [List.cons_append, List.cons.injEq] at hsplit
                exact absurd hsplit.2.symm (List.append_ne_nil_of_right_ne_nil _ (by simp))
          · cases tcl with
            | nil =>
              rw [hT] at hsplit
              dsimp only at hsplit
              rcases pre with _ | ⟨p, pre'⟩
              · simp at hsplit
              · simp only [List.cons_append, List.cons.injEq] at hsplit
                obtain ⟨-, hsplit⟩ := hsplit
                rcases pre' with _ | ⟨q, pre''⟩
                · simp only [List.nil_append, List.cons.injEq, REvent.append.injEq] at hsplit
                  rw [← hsplit.1] at htcs
                  simp at htcs
                · simp only [List.cons_append, List.cons.injEq] at hsplit
                  exact absurd hsplit.2.symm (List.append_ne_nil_of_right_ne_nil _ (by simp))
            | cons tc0 tcs0 =>
              rw [hT] at hsplit
              dsimp only at hsplit
              have hspec := toolLoop_events_spec env (tc0 :: tcs0)
                (cm'.add_raw
                  { role := "assistant",
                    content := .str (pyOrStr response.content ""),
                    tool_calls := some (tc0 :: tcs0) })
              rcases hL : toolLoop env
                  (cm'.add_raw
                    { role := "assistant",
                      content := .str (pyOrStr response.content ""),
                      tool_calls := some (tc0 :: tcs0) }) (tc0 :: tcs0) with ⟨cm₂, tevs, e2?⟩
              rw [hL] at hsplit hspec
              cases e2? with
              | some e2 =>
                dsimp only at hsplit hspec
                rcases hspec with ⟨h1, -⟩ | ⟨k, e3, hk, -, htevs⟩
                · simp at h1
                rcases pre with _ | ⟨p, pre'⟩
                · simp at hsplit
                · simp only [List.cons_append, List.cons.injEq] at hsplit
                  obtain ⟨-, hsplit⟩ := hsplit
                  rcases pre' with _ | ⟨q, pre''⟩
                  · simp only [List.nil_append, List.cons.injEq, REvent.append.injEq] at hsplit
                    obtain ⟨-, hpost⟩ := hsplit
                    rw [← hpost, htevs] at hnext
                    exact absurd hnext (not_modelInvoked_mem_toolAppends env _)
                  · simp only [List.cons_append, List.cons.injEq] at hsplit
                    obtain ⟨-, hsplit⟩ := hsplit
                    have hmem : REvent.append am ∈ tevs := by
                      rw [hsplit]
                      exact List.mem_append_right _ (List.mem_cons_self _ _)
                    rw [htevs] at hmem
                    obtain ⟨tc', -, heq⟩ := List.mem_map.mp hmem
                    have : am.tool_calls = none := by
                      have ham : toolMsgFor env tc' = am := by
                        simpa [toolAppendFor] using heq
                      rw [← ham]
                      rfl
                    rw [this] at htcs
                    exact absurd htcs (by simp)
              | none =>
                dsimp only at hsplit hspec
                rcases hspec with ⟨-, htevs⟩ | ⟨k, e3, hk, h1, -⟩
                swap
                · simp at h1
                rcases pre with _ | ⟨p, pre'⟩
                · simp at hsplit
                · simp only [List.cons_append, List.cons.injEq] at hsplit
                  obtain ⟨-, hsplit⟩ := hsplit
                  rcases pre' with _ | ⟨q, pre''⟩
                  · simp only [List.nil_append, List.cons.injEq, REvent.append.injEq] at hsplit
                    obtain ⟨ham, hpost⟩ := hsplit
                    rw [← ham] at htcs
                    have htcseq : tcs = tc0 :: tcs0 := by
                      simpa using htcs.symm
                    subst htcseq
                    refine ⟨hids mi response _ hM hT, ?_⟩
                    have hmem2 : REvent.modelInvoked ∈
                        (runLoop env fuel cm₂ (mi + 1) ci').events := by
                      rw [← hpost] at hnext
                      rcases List.mem_append.mp hnext with h | h
                      · rw [htevs] at h
                        exact absurd h (not_modelInvoked_mem_toolAppends env _)
                      · exact h
                    rcases runLoop_events_shape env fuel cm₂ (mi + 1) ci' with
                      h0 | ⟨r', hr⟩ | hN
                    · rw [h0] at hmem2
                      simp at hmem2
                    · refine ⟨r', ?_⟩
                      rw [← hpost, htevs, hr]
                    · rw [hN] at hmem2
                      simp at hmem2
                  · simp only [List.cons_append, List.cons.injEq] at hsplit
                    obtain ⟨-, hsplit⟩ := hsplit
                    rcases List.append_eq_append_iff.mp hsplit with
                      ⟨w, hw1, hw2⟩ | ⟨w, hw1, hw2⟩
                    · exact ih cm₂ (mi + 1) ci' w am post tcs hw2 htcs hne hnext
                    · cases w with
                      | nil =>
                        simp only [List.nil_append] at hw2
                        exact ih cm₂ (mi + 1) ci' [] am post tcs (by simpa using hw2.symm)
                          htcs hne hnext
                      | cons w0 w' =>
                        have hmem : REvent.append am ∈ tevs := by
                          rw [hw1]
                          have : w0 = REvent.append am := by
                            have := hw2
                            simp only [List.cons_append, List.cons.injEq] at this
                            exact this.1.symm
                          rw [this]
                          exact List.mem_append_right _ (List.mem_cons_self _ _)
                        rw [htevs] at hmem
                        obtain ⟨tc', -, heq⟩ := List.mem_map.mp hmem
                        have : am.tool_calls = none := by
                          have ham : toolMsgFor env tc' = am := by
                            simpa [toolAppendFor] using heq
                          rw [← ham]
                          rfl
                        rw [this] at htcs
                        exact absurd htcs (by simp)

/-- C4: tool-call pairing invariant of Agent.run.  In any run whose model
responses carry tool-call ids, whenever an assistant message with a
non-empty tool_calls list is appended to the history and the run reaches
another model invocation, the events between that append and the next
model invocation are exactly one tool-role append per requested call —
`tcs.map (toolAppendFor env)` — in the order of the tool_calls list, the
next model invocation coming immediately after them; each appended message
is the tool message of its call, carrying the completed, nudged execution
result (each call runs to completion before the next starts, `toolLoop`
being sequential) and referencing that call's own id. -/
theorem tool_call_pairing (env : AgentEnv) (cm : ContextManager)
    (user_message : String) (image_b64 : Option String)
    (hids : ∀ i resp tcs, env.mainModel i = Except.ok resp →
      resp.tool_calls = some tcs → ∀ tc ∈ tcs, tc.id ≠ none)
    (pre : List REvent) (am : Message) (post : List REvent) (tcs : List ToolCall)
    (hsplit : (run env cm user_message image_b64).events =
      pre ++ REvent.append am :: post)
    (htcs : am.tool_calls = some tcs) (hne : tcs ≠ [])
    (hnext : REvent.modelInvoked ∈ post) :
    (∀ tc ∈ tcs, ∃ theId, tc.id = some theId ∧
      toolMsgFor env tc =
        { role := "tool",
          content := .str (nudge (executeTool env tc.name
            (decodeArgs env.parseJson tc.arguments))),
          tool_calls := none,
          tool_call_id := some theId }) ∧
    ∃ rest, post = tcs.map (toolAppendFor env) ++ REvent.modelInvoked :: rest := by
  have hrun : (run env cm user_message image_b64).events =
      REvent.append (userMsgFor user_message image_b64) ::
        (runLoop env env.max_tool_iterations
          (cm.add_raw (userMsgFor user_message image_b64)) 0 0).events := rfl
  rw [hrun] at hsplit
  rcases pre with _ | ⟨p, pre'⟩
  · simp only [List.nil_append, List.cons.injEq, REvent.append.injEq] at hsplit
    rw [← hsplit.1, userMsgFor_tool_calls] at htcs
    exact absurd htcs (by simp)
  · simp only [List.cons_append, List.cons.injEq] at hsplit
    obtain ⟨-, hsplit⟩ := hsplit
    obtain ⟨hid, hrest⟩ := runLoop_pairing env hids env.max_tool_iterations
      (cm.add_raw (userMsgFor user_message image_b64)) 0 0 pre' am post tcs
      hsplit htcs hne hnext
    refine ⟨?_, hrest⟩
    intro tc htc
    obtain ⟨theId, hsome⟩ := Option.ne_none_iff_exists'.mp (hid tc htc)
    exact ⟨theId, hsome, by simp [toolMsgFor, toolCallIdOf, hsome]⟩

/-- First tool call of the C4 witness run (a known tool). -/
def tcA : ToolCall := { id := some "idA", name := "bash", arguments := "ls" }

/-- Second tool call of the C4 witness run (an unknown tool, exercising
the recovered error path inside the same block). -/
def tcB : ToolCall := { id := some "idB", name := "nope", arguments := "x" }

/-- Model response used for the C4 witness: two tool calls with ids. -/
def respPair : LLMResponse :=
  { content := some "working", tool_calls := some [tcA, tcB] }

/-- Environment of the C4 witness: the model requests [tcA, tcB] on every
response, iteration cap 2, no callback. -/
def envPair : AgentEnv :=
  { mainModel := fun _ => .ok respPair,
    compactModel := fun _ => .ok dummyResp,
    registry := [("bash", fun _ => .ok "done")],
    parseJson := fun _ => none,
    onOutput := none,
    max_tool_iterations := 2 }

/-- The assistant message appended for respPair. -/
def pairAMsg : Message :=
  { role := "assistant", content := .str "working", tool_calls := some [tcA, tcB] }

/-- The trace that follows the first block's assistant append in the C4
witness run: the two tool appends, the second model invocation, the second
block, and the iteration-limit notice. -/
def pairPost : List REvent :=
  [toolAppendFor envPair tcA, toolAppendFor envPair tcB,
   REvent.modelInvoked, REvent.append pairAMsg,
   toolAppendFor envPair tcA, toolAppendFor envPair tcB,
   REvent.append { role := "assistant", content := .str maxIterNotice }]

set_option maxRecDepth 100000 in
/-- C4, witness: the pairing theorem applied to the concrete two-call run;
the block after the assistant append is exactly the two tool appends in
order followed by the next model invocation. -/
theorem tool_call_pairing_witness :
    (∀ tc ∈ [tcA, tcB], ∃ theId, tc.id = some theId ∧
      toolMsgFor envPair tc =
        { role := "tool",
          content := .str (nudge (executeTool envPair tc.name
            (decodeArgs envPair.parseJson tc.arguments))),
          tool_calls := none,
          tool_call_id := some theId }) ∧
    ∃ rest, pairPost = [tcA, tcB].map (toolAppendFor envPair) ++
      REvent.modelInvoked :: rest := by
  refine tool_call_pairing envPair {} "go" none ?_
    [REvent.append { role := "user", content := .str "go" }, REvent.modelInvoked]
    pairAMsg pairPost [tcA, tcB] (by decide) rfl (by decide) (by decide)
  intro i resp tcs h1 h2 tc h3
  have h1' : respPair = resp := by injection h1
  rw [← h1'] at h2
  have h2' : tcs = [tcA, tcB] := by
    have h2b : some [tcA, tcB] = some tcs := h2
    exact (Option.some.inj h2b).symm
  subst h2'
  simp only [List.mem_cons, List.mem_singleton] at h3
  rcases h3 with rfl | h3
  · decide
  · rcases h3 with rfl | h3
    · decide
    · simp at h3

/-! Claim C3 — termination and the iteration-limit notice. -/

/-- Model response that always requests one tool call and reports usage,
as a standard OpenAI-compatible endpoint does. -/
def respUsageTC : LLMResponse :=
  { content := none,
    tool_calls := some [{ id := some "id1", name := "bash", arguments := "\x7b\x7d" }],
    usage := some { prompt_tokens := 5, completion_tokens := 7, total_tokens := 12 } }

/-- The same always-tool-call response without a usage record. -/
def respNoUsageTC : LLMResponse := { respUsageTC with usage := none }

/-- Environment with iteration cap 1 and a model that always requests a
tool call and reports usage. -/
def envUsage : AgentEnv :=
  { mainModel := fun _ => .ok respUsageTC,
    compactModel := fun _ => .ok dummyResp,
    registry := [("bash", fun _ => .ok "done")],
    parseJson := fun _ => none,
    onOutput := none,
    max_tool_iterations := 1 }

/-- The same environment with the usage record stripped from responses. -/
def envNoUsage : AgentEnv := { envUsage with mainModel := fun _ => .ok respNoUsageTC }

/-- C3, code bug: with max_tool_iterations = 1 and a model that requests a
tool call on every response, Agent.run should reach the cap and return the
fixed iteration-limit notice; but agent.py calls
`self.ctx.update_actual_tokens(...)` on any response carrying usage, a
method ContextManager does not define, so the run dies with an
AttributeError on the very first round-trip instead.  Stripping the usage
record from the otherwise identical responses restores the documented
terminal notice, isolating the slip. -/
theorem run_usage_attribute_error :
    (run envUsage ({} : ContextManager) "hi" none).outcome = .error attrErrMsg ∧
    (run envUsage ({} : ContextManager) "hi" none).events =
      [.append { role := "user", content := .str "hi" }, .modelInvoked] ∧
    (run envUsage ({} : ContextManager) "hi" none).outcome ≠ .ok maxIterNotice ∧
    (run envNoUsage ({} : ContextManager) "hi" none).outcome = .ok maxIterNotice := by
  decide

/-! Claim C8 — on_output callback failures. -/

/-- Model response requesting one tool call (no usage). -/
def respToolOnly : LLMResponse :=
  { content := none,
    tool_calls := some [{ id := some "id1", name := "bash", arguments := "ls" }] }

/-- Environment whose on_output callback always raises. -/
def envCbRaise : AgentEnv :=
  { mainModel := fun _ => .ok respToolOnly,
    compactModel := fun _ => .ok dummyResp,
    registry := [("bash", fun _ => .ok "done")],
    parseJson := fun _ => none,
    onOutput := some (fun _ => .error "boom"),
    max_tool_iterations := 2 }

/-- The same environment without the callback. -/
def envCbNone : AgentEnv := { envCbRaise with onOutput := none }

/-- C8, code bug: agent.py awaits on_output with no exception guard, so a
callback that raises aborts the run — the exception surfaces to run's
caller, the requested tool is never executed and no tool message is
appended, where the claim requires control flow to be unaffected.  The
identical environment without the callback runs the tool loop to the
iteration cap. -/
theorem run_callback_exception_aborts :
    (run envCbRaise ({} : ContextManager) "hi" none).outcome = .error "boom" ∧
    (run envCbRaise ({} : ContextManager) "hi" none).events =
      [.append { role := "user", content := .str "hi" }, .modelInvoked,
       .append { role := "assistant", content := .str "",
                 tool_calls := some [{ id := some "id1", name := "bash", arguments := "ls" }] }] ∧
    (run envCbNone ({} : ContextManager) "hi" none).outcome = .ok maxIterNotice := by
  decide

/-! Claim C10 — multi-part content contributes zero tokens. -/

/-- C10: the token estimate counts only string-valued message content plus
the serialized tool_calls field; a message whose content is a multi-part
list (for example a user message carrying an inline image) contributes
zero tokens, so adding such a message to the history changes neither the
estimated token count of the assembled message list nor the
needs_compaction decision. -/
theorem multipart_content_counts_zero :
    (∀ (role : String) (ps : List ContentPart) (tcid : Option String),
      msgTokens { role := role, content := .parts ps, tool_calls := none, tool_call_id := tcid } = 0) ∧
    (∀ (cm : ContextManager) (u img : String),
      estimate_messages_tokens
        ((cm.add_raw { role := "user", content := visionContent u img }).get_messages) =
        estimate_messages_tokens cm.get_messages ∧
      (cm.add_raw { role := "user", content := visionContent u img }).needs_compaction =
        cm.needs_compaction) := by
  have hzero : ∀ (role : String) (ps : List ContentPart) (tcid : Option String),
      msgTokens { role := role, content := .parts ps, tool_calls := none, tool_call_id := tcid } = 0 := by
    intro role ps tcid
    simp [msgTokens]
  refine ⟨hzero, ?_⟩
  intro cm u img
  have hmsgs : (cm.add_raw { role := "user", content := visionContent u img }).get_messages =
      cm.get_messages ++ [{ role := "user", content := visionContent u img }] := by
    simp [ContextManager.get_messages, ContextManager.add_raw]
  have hest : estimate_messages_tokens
      ((cm.add_raw { role := "user", content := visionContent u img }).get_messages) =
      estimate_messages_tokens cm.get_messages := by
    rw [hmsgs, emt_append]
    simp [visionContent, msgTokens]
  refine ⟨hest, ?_⟩
  simp only [ContextManager.needs_compaction, hest]
  rfl

end Lapka
